import Mathlib

/-!
Verification of the filtering-and-aggregation pipeline of the pharmaceutical
sales dashboard (`app.py`).

The pipeline is shallowly embedded: a pandas `DataFrame` row becomes a
`Record`, the data frame itself a `List Record` (kept in file order), dates
become integer day numbers (days since 1970-01-01), money and inventory
amounts become rationals. Column names keep the source's Spanish names in
ASCII form (`Región` becomes `region`, `Categoría` becomes `categoria`).

The file is laid out as definitions first, then theorems.
-/

namespace Dashboard

/-- One row of the sales table `pharma_data_altibajos.csv`: columns Fecha,
Región, Producto, Canal, Categoría, Laboratorio, Vendedor, Ventas, Unidades,
Inventario. Dates are day numbers; Ventas and Inventario are rationals. -/
structure Record where
  fecha : Int
  region : String
  producto : String
  canal : String
  categoria : String
  laboratorio : String
  vendedor : String
  ventas : Rat
  unidades : Int
  inventario : Rat
deriving DecidableEq

/-- The sidebar state: the tuple returned by the date widget (one or two
endpoints, modelled as a list of day numbers) plus the six multiselect
selection lists, in the order of the `filters` dict of the source. -/
structure FilterState where
  dateRange : List Int
  region : List String
  producto : List String
  canal : List String
  categoria : List String
  laboratorio : List String
  vendedor : List String

/-- Date filter of the source: when `date_range` has exactly two endpoints,
keep rows with `start_date <= Fecha <= end_date`; otherwise emit a sidebar
warning (the Boolean component) and keep the whole frame. -/
def applyDateFilter (dateRange : List Int) (df : List Record) :
    List Record × Bool :=
  match dateRange with
  | [s, e] => (df.filter (fun r => decide (s ≤ r.fecha ∧ r.fecha ≤ e)), false)
  | _ => (df, true)

/-- One categorical filter of the source loop: `if values:` guards the
`isin` restriction, so an empty selection list applies no restriction. -/
def applyCatFilter (values : List String) (proj : Record → String)
    (df : List Record) : List Record :=
  if values.isEmpty then df else df.filter (fun r => values.contains (proj r))

/-- The whole filter pipeline of the sidebar: the date filter followed by the
six categorical filters in the iteration order of the `filters` dict
(Región, Producto, Canal, Categoría, Laboratorio, Vendedor). -/
def df_filtered (fs : FilterState) (df : List Record) : List Record :=
  let d0 := (applyDateFilter fs.dateRange df).1
  let d1 := applyCatFilter fs.region (fun r => r.region) d0
  let d2 := applyCatFilter fs.producto (fun r => r.producto) d1
  let d3 := applyCatFilter fs.canal (fun r => r.canal) d2
  let d4 := applyCatFilter fs.categoria (fun r => r.categoria) d3
  let d5 := applyCatFilter fs.laboratorio (fun r => r.laboratorio) d4
  applyCatFilter fs.vendedor (fun r => r.vendedor) d5

/-- The same pipeline with the Región stage dropped, used to state that an
empty Región selection behaves exactly as an unfiltered Región dimension. -/
def df_filtered_sans_region (fs : FilterState) (df : List Record) :
    List Record :=
  let d0 := (applyDateFilter fs.dateRange df).1
  let d2 := applyCatFilter fs.producto (fun r => r.producto) d0
  let d3 := applyCatFilter fs.canal (fun r => r.canal) d2
  let d4 := applyCatFilter fs.categoria (fun r => r.categoria) d3
  let d5 := applyCatFilter fs.laboratorio (fun r => r.laboratorio) d4
  applyCatFilter fs.vendedor (fun r => r.vendedor) d5

/-- The option list of one multiselect widget: `sorted(df[col].unique())`.
Pandas `unique` keeps first occurrences, which `dedup` models, and `sorted`
sorts ascending. -/
def optionsOf (proj : Record → String) (df : List Record) : List String :=
  List.insertionSort (fun a b => a ≤ b) (df.map proj).dedup

/-- Minimum of the Fecha column, `df["Fecha"].min()`, on a non-empty frame. -/
def minFecha : List Record → Int
  | [] => 0
  | r :: rs => (rs.map fun x => x.fecha).foldl min r.fecha

/-- Maximum of the Fecha column, `df["Fecha"].max()`, on a non-empty frame. -/
def maxFecha : List Record → Int
  | [] => 0
  | r :: rs => (rs.map fun x => x.fecha).foldl max r.fecha

/-- KPI `ventas_totales`: sum of the Ventas column of the filtered view. -/
def ventas_totales (df : List Record) : Rat := (df.map fun r => r.ventas).sum

/-- KPI `unidades_totales`: sum of the Unidades column of the filtered view. -/
def unidades_totales (df : List Record) : Int :=
  (df.map fun r => r.unidades).sum

/-- KPI `precio_unitario`: total sales over total units, guarded by
`if unidades_totales > 0` with 0 otherwise. -/
def precio_unitario (df : List Record) : Rat :=
  if 0 < unidades_totales df then
    ventas_totales df / (unidades_totales df : Rat)
  else 0

/-- Python whitespace stripped by `str.strip`: space, tab, line feed,
carriage return, vertical tab, form feed. -/
def isSpaceCh (c : Char) : Bool :=
  c.toNat = 32 || c.toNat = 9 || c.toNat = 10 || c.toNat = 13 ||
    c.toNat = 11 || c.toNat = 12

/-- ASCII cased letters, the alphabetic class `str.title` acts on over this
data. -/
def isAlphaCh (c : Char) : Bool :=
  (65 ≤ c.toNat && c.toNat ≤ 90) || (97 ≤ c.toNat && c.toNat ≤ 122)

/-- ASCII lower-casing of one character. -/
def lowerCh (c : Char) : Char :=
  if 65 ≤ c.toNat && c.toNat ≤ 90 then Char.ofNat (c.toNat + 32) else c

/-- ASCII upper-casing of one character. -/
def upperCh (c : Char) : Char :=
  if 97 ≤ c.toNat && c.toNat ≤ 122 then Char.ofNat (c.toNat - 32) else c

/-- Python `str.title` over a character list: the first letter of every
alphabetic run is upper-cased and the rest lower-cased; the flag records
whether the previous character was alphabetic. -/
def titleAux (prev : Bool) : List Char → List Char
  | [] => []
  | c :: cs =>
    if isAlphaCh c then
      (if prev then lowerCh c else upperCh c) :: titleAux true cs
    else
      c :: titleAux false cs

/-- Python `str.title` over a character list. -/
def titleStr (s : List Char) : List Char := titleAux false s

/-- Trailing-whitespace removal: a character is kept unless it is whitespace
and everything after it is trimmed away. -/
def trimRight : List Char → List Char
  | [] => []
  | c :: cs =>
    let t := trimRight cs
    if t.isEmpty && isSpaceCh c then [] else c :: t

/-- Python `str.strip` over a character list: drop surrounding whitespace. -/
def stripStr (s : List Char) : List Char :=
  trimRight (s.dropWhile isSpaceCh)

/-- Región normalization of `load_data`:
`df["Región"].str.title().str.strip()`. -/
def normalizeRegion (s : String) : String :=
  String.mk (stripStr (titleStr s.data))

/-- Row transformation of `load_data`: normalize the Región column. -/
def normalizeRecord (r : Record) : Record :=
  { r with region := normalizeRegion r.region }

/-- Canonical case-and-surrounding-whitespace key of a string: strings that
differ only in letter case or surrounding whitespace share this key. -/
def caseWsKey (s : String) : List Char :=
  (stripStr s.data).map lowerCh

/-- Outcome of the `pd.read_csv` call as `load_data` observes it: the file is
missing, parsing raised with a message, or a list of rows was parsed. -/
inductive LoadInput where
  | missingFile : LoadInput
  | parseFailure (msg : String) : LoadInput
  | parsed (rows : List Record) : LoadInput

/-- The three distinct failure conditions `load_data` reports via
`st.error` before returning None. -/
inductive LoadError where
  | missingSource : LoadError
  | emptySource : LoadError
  | malformedSource (msg : String) : LoadError
deriving DecidableEq

/-- The `st.error` text shown for each failure (ASCII rendering of the
source's Spanish messages). -/
def errorMessage : LoadError → String
  | .missingSource =>
    "No se encontro el archivo de datos. Verifica la ruta: data/pharma_data_altibajos.csv"
  | .emptySource => "El archivo de datos esta vacio."
  | .malformedSource msg => "Error al cargar los datos: " ++ msg

/-- The `load_data` function: a missing file and a parse failure are caught
by the two except arms; a parsed but empty frame fails the `df.empty`
validation; otherwise the Región column is normalized and the frame
returned. On every failure the caller receives only the error (the source
returns None and the script stops), never a partial frame. -/
def load_data : LoadInput → Except LoadError (List Record)
  | .missingFile => .error .missingSource
  | .parseFailure msg => .error (.malformedSource msg)
  | .parsed rows =>
    if rows.isEmpty then .error .emptySource
    else .ok (rows.map normalizeRecord)

/-- Concrete row used by several witnesses. -/
def rowW : Record :=
  ⟨5, "Lima", "Aspirina", "Retail", "Analgesico", "Bayer", "Ana", 100, 10, 50⟩

/-- Concrete filter state: date interval with both endpoints and one
non-empty selection. -/
def fsW : FilterState :=
  ⟨[1, 9], ["Lima"], [], [], [], [], []⟩

/-- Second concrete row for the identity witness. -/
def rowX : Record :=
  ⟨7, "Cusco", "Ibuprofeno", "Hospital", "Analgesico", "Roche", "Luis", 200,
    20, 30⟩

/-- Concrete frame for the identity witness. -/
def dfW : List Record := [rowW, rowX]

/-- The default filter state of `dfW`: full date span and full option
lists. -/
def fsIdW : FilterState :=
  ⟨[minFecha dfW, maxFecha dfW],
   optionsOf (fun r => r.region) dfW,
   optionsOf (fun r => r.producto) dfW,
   optionsOf (fun r => r.canal) dfW,
   optionsOf (fun r => r.categoria) dfW,
   optionsOf (fun r => r.laboratorio) dfW,
   optionsOf (fun r => r.vendedor) dfW⟩

/-- Concrete filter state with the Región multiselect fully deselected. -/
def fsEmptyW : FilterState :=
  ⟨[1, 9], [], ["Aspirina"], [], [], [], []⟩

/-- Concrete row with zero units, from the spec's scenario (dated day 3,
sales 300, units 0). -/
def rowZ : Record :=
  ⟨3, "Lima", "Aspirina", "Retail", "Analgesico", "Bayer", "Ana", 300, 0, 40⟩

/-- Modelled from the spec: the index of the Monday-through-Sunday calendar
week containing a day, per the spec's phrase week-starting-Monday. Day 4
(1970-01-05) is a Monday, so Monday-starting weeks are the intervals
[4 + 7k, 10 + 7k]. Used only to compare the spec's week convention with the
one the code's resample("W-MON") call implements. -/
def specMondayWeekIndex (d : Int) : Int := (d - 4).fdiv 7

/-- Two records dated Monday day 4 and Tuesday day 5: one Monday-starting
week by the spec's convention, two W-MON bins by the code's. -/
def dfWeek : List Record :=
  [⟨4, "Lima", "Aspirina", "Retail", "Analgesico", "Bayer", "Ana", 100, 10, 50⟩,
   ⟨5, "Lima", "Aspirina", "Retail", "Analgesico", "Bayer", "Ana", 200, 20, 30⟩]

/-- The spec's normalization scenario: three raw records whose Región values
differ only in case and surrounding whitespace. -/
def dfC8 : List Record :=
  [⟨1, "lima", "Aspirina", "Retail", "Analgesico", "Bayer", "Ana", 100, 10, 40⟩,
   ⟨2, "Lima ", "Aspirina", "Retail", "Analgesico", "Bayer", "Ana", 200, 20, 40⟩,
   ⟨3, "LIMA", "Aspirina", "Retail", "Analgesico", "Bayer", "Ana", 300, 0, 40⟩]

/-- Pandas `groupby(key)["Ventas"].sum()`: one entry per distinct key value
(groupby sorts keys ascending), holding the summed Ventas of that group. -/
def groupSumsBy (proj : Record → String) (df : List Record) :
    List (String × Rat) :=
  (optionsOf proj df).map fun k =>
    (k, ((df.filter fun r => proj r == k).map fun r => r.ventas).sum)

/-- Descending-by-value comparison used by `nlargest(n, "Ventas")`. -/
def valGe (a b : String × Rat) : Prop := b.2 ≤ a.2

instance : DecidableRel valGe := fun a b =>
  inferInstanceAs (Decidable (b.2 ≤ a.2))

instance : IsTotal (String × Rat) valGe := ⟨fun a b => le_total b.2 a.2⟩

instance : IsTrans (String × Rat) valGe :=
  ⟨fun _ _ _ h1 h2 => le_trans h2 h1⟩

/-- The ranking helper `nlargest(n, "Ventas")` with the default
`keep="first"`: a stable descending sort by value followed by taking the
first n entries. -/
def topN (m : List (String × Rat)) (n : Nat) : List (String × Rat) :=
  (List.insertionSort valGe m).take n

/-- Tab 1: `groupby("Producto")["Ventas"].sum().nlargest(10, "Ventas")`. -/
def top_productos (df : List Record) : List (String × Rat) :=
  topN (groupSumsBy (fun r => r.producto) df) 10

/-- Tab 3: `groupby("Vendedor")["Ventas"].sum().nlargest(10, "Ventas")`. -/
def top_vendedores (df : List Record) : List (String × Rat) :=
  topN (groupSumsBy (fun r => r.vendedor) df) 10

/-- The five aggregation periods of the Tendencias tab, mapped by the source
to the resample codes D, W-MON, M, Q and Y. -/
inductive Granularity where
  | diario : Granularity
  | semanal : Granularity
  | mensual : Granularity
  | trimestral : Granularity
  | anual : Granularity

/-- Civil-calendar year and month of a day number (days since 1970-01-01),
by the standard proleptic-Gregorian conversion on 400-year eras. -/
def civilYM (z : Int) : Int × Int :=
  let z2 := z + 719468
  let era := z2.fdiv 146097
  let doe := z2 - era * 146097
  let yoe := (doe - doe.fdiv 1460 + doe.fdiv 36524 - doe.fdiv 146096).fdiv 365
  let y := yoe + era * 400
  let doy := doe - (365 * yoe + yoe.fdiv 4 - yoe.fdiv 100)
  let mp := (5 * doy + 2).fdiv 153
  let m := if mp < 10 then mp + 3 else mp - 9
  (if m ≤ 2 then y + 1 else y, m)

/-- The resample bin of a date under each period code: the day itself for D;
the index of the Tuesday-to-Monday week for W-MON (pandas W-MON bins are
right-closed and labelled on Monday; day 4, 1970-01-05, is a Monday); the
month count for M; the quarter count for Q; the civil year for Y. Within one
granularity, keys are order-isomorphic to calendar periods. -/
def periodIndex (g : Granularity) (d : Int) : Int :=
  match g with
  | .diario => d
  | .semanal => (d + 2).fdiv 7
  | .mensual => (civilYM d).1 * 12 + ((civilYM d).2 - 1)
  | .trimestral => (civilYM d).1 * 4 + ((civilYM d).2 - 1).fdiv 3
  | .anual => (civilYM d).1

/-- One output row of the Tendencias aggregation: the bucket key and the
aggregates Ventas sum, Inventario mean (None models the NaN pandas mean
yields on an empty bin) and Unidades sum. -/
structure TrendRow where
  key : Int
  ventas : Rat
  inventario : Option Rat
  unidades : Int
deriving DecidableEq

/-- Smallest occupied bucket key of a non-empty view. -/
def loKey (g : Granularity) : List Record → Int
  | [] => 0
  | r :: rs =>
    (rs.map fun x => periodIndex g x.fecha).foldl min (periodIndex g r.fecha)

/-- Largest occupied bucket key of a non-empty view. -/
def hiKey (g : Granularity) : List Record → Int
  | [] => 0
  | r :: rs =>
    (rs.map fun x => periodIndex g x.fecha).foldl max (periodIndex g r.fecha)

/-- The Tendencias aggregation
`set_index("Fecha").resample(period_code).agg(...)`: one row per bucket key
from the first occupied period to the last (resample materializes the empty
bins in between), each holding the Ventas sum, the Inventario mean and the
Unidades sum of the rows whose date falls in that period, in ascending
period order. -/
def df_trend (g : Granularity) (rows : List Record) : List TrendRow :=
  match rows with
  | [] => []
  | r :: rs =>
    let lo := loKey g (r :: rs)
    let hi := hiKey g (r :: rs)
    (List.range (hi - lo + 1).toNat).map fun (i : Nat) =>
      let k := lo + (i : Int)
      let bucket := (r :: rs).filter fun x => periodIndex g x.fecha == k
      { key := k
        ventas := (bucket.map fun x => x.ventas).sum
        inventario :=
          if bucket.isEmpty then none
          else some ((bucket.map fun x => x.inventario).sum /
            (bucket.length : Rat))
        unidades := (bucket.map fun x => x.unidades).sum }

theorem applyCatFilter_sublist (v : List String) (p : Record → String)
    (d : List Record) : (applyCatFilter v p d).Sublist d := by
  unfold applyCatFilter
  split
  · exact List.Sublist.refl d
  · exact List.filter_sublist d

theorem mem_applyCatFilter {v : List String} {p : Record → String}
    {d : List Record} {r : Record} (h : r ∈ applyCatFilter v p d) :
    r ∈ d ∧ (v ≠ [] → p r ∈ v) := by
  unfold applyCatFilter at h
  split at h
  · rename_i hv
    exact ⟨h, fun hne => absurd (List.isEmpty_iff.mp hv) hne⟩
  · rcases List.mem_filter.mp h with ⟨hm, hp⟩
    exact ⟨hm, fun _ => List.mem_of_elem_eq_true hp⟩

theorem applyDateFilter_fst_sublist (dr : List Int) (d : List Record) :
    ((applyDateFilter dr d).1).Sublist d := by
  unfold applyDateFilter
  split
  · exact List.filter_sublist d
  · exact List.Sublist.refl d

theorem mem_applyDateFilter_pair {s e : Int} {d : List Record} {r : Record}
    (h : r ∈ (applyDateFilter [s, e] d).1) :
    r ∈ d ∧ s ≤ r.fecha ∧ r.fecha ≤ e := by
  unfold applyDateFilter at h
  rcases List.mem_filter.mp h with ⟨hm, hp⟩
  exact ⟨hm, of_decide_eq_true hp⟩

/-- C1. Filter soundness: with a two-endpoint date interval, every row of the
filtered view is a row of the input frame, its date lies in the closed
interval, and every dimension whose selection list is non-empty restricts the
row's value to that list. -/
theorem filter_soundness (fs : FilterState) (df : List Record) (s e : Int)
    (hdr : fs.dateRange = [s, e]) :
    (df_filtered fs df).Sublist df ∧
    ∀ r ∈ df_filtered fs df,
      (s ≤ r.fecha ∧ r.fecha ≤ e) ∧
      (fs.region ≠ [] → r.region ∈ fs.region) ∧
      (fs.producto ≠ [] → r.producto ∈ fs.producto) ∧
      (fs.canal ≠ [] → r.canal ∈ fs.canal) ∧
      (fs.categoria ≠ [] → r.categoria ∈ fs.categoria) ∧
      (fs.laboratorio ≠ [] → r.laboratorio ∈ fs.laboratorio) ∧
      (fs.vendedor ≠ [] → r.vendedor ∈ fs.vendedor) := by
  constructor
  · refine ((((((applyCatFilter_sublist _ _ _).trans
      (applyCatFilter_sublist _ _ _)).trans
      (applyCatFilter_sublist _ _ _)).trans
      (applyCatFilter_sublist _ _ _)).trans
      (applyCatFilter_sublist _ _ _)).trans
      (applyCatFilter_sublist _ _ _)).trans
      (applyDateFilter_fst_sublist _ _)
  · intro r hr
    unfold df_filtered at hr
    obtain ⟨hr, hvend⟩ := mem_applyCatFilter hr
    obtain ⟨hr, hlab⟩ := mem_applyCatFilter hr
    obtain ⟨hr, hcat⟩ := mem_applyCatFilter hr
    obtain ⟨hr, hcan⟩ := mem_applyCatFilter hr
    obtain ⟨hr, hprod⟩ := mem_applyCatFilter hr
    obtain ⟨hr, hreg⟩ := mem_applyCatFilter hr
    rw [hdr] at hr
    obtain ⟨_, hdate⟩ := mem_applyDateFilter_pair hr
    exact ⟨hdate, hreg, hprod, hcan, hcat, hlab, hvend⟩

theorem filter_soundness_witness :
    (df_filtered fsW [rowW]).Sublist [rowW] ∧
    ∀ r ∈ df_filtered fsW [rowW],
      ((1 : Int) ≤ r.fecha ∧ r.fecha ≤ 9) ∧
      (fsW.region ≠ [] → r.region ∈ fsW.region) ∧
      (fsW.producto ≠ [] → r.producto ∈ fsW.producto) ∧
      (fsW.canal ≠ [] → r.canal ∈ fsW.canal) ∧
      (fsW.categoria ≠ [] → r.categoria ∈ fsW.categoria) ∧
      (fsW.laboratorio ≠ [] → r.laboratorio ∈ fsW.laboratorio) ∧
      (fsW.vendedor ≠ [] → r.vendedor ∈ fsW.vendedor) :=
  filter_soundness fsW [rowW] 1 9 rfl

theorem foldl_min_le_init : ∀ (l : List Int) (a : Int), l.foldl min a ≤ a := by
  intro l
  induction l with
  | nil => intro a; exact le_refl a
  | cons b t ih =>
    intro a
    calc (b :: t).foldl min a = t.foldl min (min a b) := rfl
    _ ≤ min a b := ih (min a b)
    _ ≤ a := min_le_left a b

theorem foldl_min_le_mem :
    ∀ (l : List Int) (a x : Int), x ∈ l → l.foldl min a ≤ x := by
  intro l
  induction l with
  | nil => intro a x hx; exact absurd hx (List.not_mem_nil x)
  | cons b t ih =>
    intro a x hx
    rcases List.mem_cons.mp hx with hb | ht
    · subst hb
      calc (x :: t).foldl min a = t.foldl min (min a x) := rfl
      _ ≤ min a x := foldl_min_le_init t (min a x)
      _ ≤ x := min_le_right a x
    · exact ih (min a b) x ht

theorem le_foldl_max_init : ∀ (l : List Int) (a : Int), a ≤ l.foldl max a := by
  intro l
  induction l with
  | nil => intro a; exact le_refl a
  | cons b t ih =>
    intro a
    calc a ≤ max a b := le_max_left a b
    _ ≤ t.foldl max (max a b) := ih (max a b)
    _ = (b :: t).foldl max a := rfl

theorem le_foldl_max_mem :
    ∀ (l : List Int) (a x : Int), x ∈ l → x ≤ l.foldl max a := by
  intro l
  induction l with
  | nil => intro a x hx; exact absurd hx (List.not_mem_nil x)
  | cons b t ih =>
    intro a x hx
    rcases List.mem_cons.mp hx with hb | ht
    · subst hb
      calc x ≤ max a x := le_max_right a x
      _ ≤ t.foldl max (max a x) := le_foldl_max_init t (max a x)
      _ = (x :: t).foldl max a := rfl
    · exact ih (max a b) x ht

theorem minFecha_le {df : List Record} {r : Record} (h : r ∈ df) :
    minFecha df ≤ r.fecha := by
  cases df with
  | nil => exact absurd h (List.not_mem_nil r)
  | cons b t =>
    rcases List.mem_cons.mp h with hb | ht
    · subst hb
      exact foldl_min_le_init (t.map fun x => x.fecha) r.fecha
    · exact foldl_min_le_mem _ _ _ (List.mem_map_of_mem _ ht)

theorem le_maxFecha {df : List Record} {r : Record} (h : r ∈ df) :
    r.fecha ≤ maxFecha df := by
  cases df with
  | nil => exact absurd h (List.not_mem_nil r)
  | cons b t =>
    rcases List.mem_cons.mp h with hb | ht
    · subst hb
      exact le_foldl_max_init (t.map fun x => x.fecha) r.fecha
    · exact le_foldl_max_mem _ _ _ (List.mem_map_of_mem _ ht)

theorem mem_optionsOf {proj : Record → String} {df : List Record} {r : Record}
    (h : r ∈ df) : proj r ∈ optionsOf proj df := by
  unfold optionsOf
  exact (List.perm_insertionSort _ _).mem_iff.mpr
    (List.mem_dedup.mpr (List.mem_map_of_mem proj h))

theorem applyCatFilter_eq_self {v : List String} {p : Record → String}
    {d : List Record} (h : ∀ r ∈ d, p r ∈ v) : applyCatFilter v p d = d := by
  unfold applyCatFilter
  split
  · rfl
  · exact List.filter_eq_self.mpr fun r hr =>
      List.elem_eq_true_of_mem (h r hr)

/-- C2. Identity property: with the default filter state — the date interval
spanning the whole Fecha column and every multiselect equal to its full
option list — the filtered view is the input frame, same rows, same order. -/
theorem filter_identity (df : List Record) (fs : FilterState)
    (hdr : fs.dateRange = [minFecha df, maxFecha df])
    (h1 : fs.region = optionsOf (fun r => r.region) df)
    (h2 : fs.producto = optionsOf (fun r => r.producto) df)
    (h3 : fs.canal = optionsOf (fun r => r.canal) df)
    (h4 : fs.categoria = optionsOf (fun r => r.categoria) df)
    (h5 : fs.laboratorio = optionsOf (fun r => r.laboratorio) df)
    (h6 : fs.vendedor = optionsOf (fun r => r.vendedor) df) :
    df_filtered fs df = df := by
  have hd : (applyDateFilter fs.dateRange df).1 = df := by
    rw [hdr]
    exact List.filter_eq_self.mpr fun r hr =>
      decide_eq_true ⟨minFecha_le hr, le_maxFecha hr⟩
  have c1 : applyCatFilter fs.region (fun r => r.region) df = df :=
    applyCatFilter_eq_self fun r hr => by rw [h1]; exact mem_optionsOf hr
  have c2 : applyCatFilter fs.producto (fun r => r.producto) df = df :=
    applyCatFilter_eq_self fun r hr => by rw [h2]; exact mem_optionsOf hr
  have c3 : applyCatFilter fs.canal (fun r => r.canal) df = df :=
    applyCatFilter_eq_self fun r hr => by rw [h3]; exact mem_optionsOf hr
  have c4 : applyCatFilter fs.categoria (fun r => r.categoria) df = df :=
    applyCatFilter_eq_self fun r hr => by rw [h4]; exact mem_optionsOf hr
  have c5 : applyCatFilter fs.laboratorio (fun r => r.laboratorio) df = df :=
    applyCatFilter_eq_self fun r hr => by rw [h5]; exact mem_optionsOf hr
  have c6 : applyCatFilter fs.vendedor (fun r => r.vendedor) df = df :=
    applyCatFilter_eq_self fun r hr => by rw [h6]; exact mem_optionsOf hr
  simp only [df_filtered]
  rw [hd, c1, c2, c3, c4, c5, c6]

theorem filter_identity_witness : df_filtered fsIdW dfW = dfW :=
  filter_identity dfW fsIdW rfl rfl rfl rfl rfl rfl rfl

/-- C4. Empty categorical selection is no restriction: when the Región
selection list is empty, the pipeline result coincides with the pipeline that
omits the Región stage altogether, so an all-deselected dimension never by
itself empties the view. -/
theorem empty_selection_unrestricted (fs : FilterState) (df : List Record)
    (h : fs.region = []) :
    df_filtered fs df = df_filtered_sans_region fs df ∧
    (df_filtered_sans_region fs df ≠ [] → df_filtered fs df ≠ []) := by
  have key : df_filtered fs df = df_filtered_sans_region fs df := by
    simp only [df_filtered, df_filtered_sans_region, h, applyCatFilter,
      List.isEmpty_nil, if_true]
  exact ⟨key, fun hne => key ▸ hne⟩

theorem empty_selection_unrestricted_witness :
    df_filtered fsEmptyW [rowW] = df_filtered_sans_region fsEmptyW [rowW] ∧
    (df_filtered_sans_region fsEmptyW [rowW] ≠ [] →
      df_filtered fsEmptyW [rowW] ≠ []) :=
  empty_selection_unrestricted fsEmptyW [rowW] rfl

/-- C5, counterexample. With a two-endpoint interval whose end precedes its
start (end 1 < start 3), the engine does not fall back to the unrestricted
view and does not warn: it applies the empty conjunctive range test, so the
view is empty, the warning flag is false, and the frame was non-empty. -/
theorem invalid_range_counterexample :
    (applyDateFilter [3, 1] [rowW]).1 = [] ∧
    (applyDateFilter [3, 1] [rowW]).2 = false ∧
    ([rowW] : List Record) ≠ [] := by
  refine ⟨?_, rfl, by simp⟩
  simp [applyDateFilter, rowW]

/-- C5, amended. The fallback-and-warn path is taken exactly when the widget
tuple does not have two endpoints; a two-endpoint interval — even with end
before start — is applied as the conjunctive range test with no warning. -/
theorem invalid_range_fallback (dr : List Int) (df : List Record) :
    (dr.length ≠ 2 → applyDateFilter dr df = (df, true)) ∧
    ∀ s e, dr = [s, e] →
      applyDateFilter dr df =
        (df.filter (fun r => decide (s ≤ r.fecha ∧ r.fecha ≤ e)), false) := by
  rcases dr with _ | ⟨a, dr⟩
  · exact ⟨fun _ => rfl, fun s e h => by simp at h⟩
  rcases dr with _ | ⟨b, dr⟩
  · exact ⟨fun _ => rfl, fun s e h => by simp at h⟩
  rcases dr with _ | ⟨c, dr⟩
  · refine ⟨fun hlen => absurd rfl hlen, fun s e h => ?_⟩
    obtain ⟨rfl, rfl⟩ : a = s ∧ b = e := by simpa using h
    rfl
  · exact ⟨fun _ => rfl, fun s e h => by simp at h⟩

theorem invalid_range_fallback_witness :
    applyDateFilter [3] [rowW] = ([rowW], true) ∧
    applyDateFilter [1, 9] [rowW] =
      ([rowW].filter (fun r => decide ((1 : Int) ≤ r.fecha ∧ r.fecha ≤ 9)),
        false) :=
  ⟨(invalid_range_fallback [3] [rowW]).1 (by decide),
   (invalid_range_fallback [1, 9] [rowW]).2 1 9 rfl⟩

/-- C3. Unit-price KPI is total-guarded: on a non-empty view, zero total
units give unit price 0 with no division, and positive total units give
total sales divided by total units. -/
theorem precio_unitario_total_guarded (df : List Record) (hne : df ≠ []) :
    (unidades_totales df = 0 → precio_unitario df = 0) ∧
    (0 < unidades_totales df →
      precio_unitario df = ventas_totales df / (unidades_totales df : Rat)) := by
  constructor
  · intro h
    simp [precio_unitario, h]
  · intro h
    simp [precio_unitario, h]

theorem precio_unitario_total_guarded_witness :
    (unidades_totales [rowZ] = 0 ∧ precio_unitario [rowZ] = 0) ∧
    (0 < unidades_totales dfW ∧
      precio_unitario dfW = ventas_totales dfW / (unidades_totales dfW : Rat)) :=
  ⟨⟨rfl, (precio_unitario_total_guarded [rowZ] (by simp)).1 rfl⟩,
   ⟨by decide, (precio_unitario_total_guarded dfW (by simp [dfW])).2
      (by decide)⟩⟩

/-- C6. Loader failure discrimination and atomicity: the three failure
situations map to three pairwise-distinct error conditions (malformed
wrapping the cause message), the sidebar texts of the three conditions are
pairwise distinct for every cause message, and a failed load never exposes
any dataset, partial or otherwise. -/
theorem load_data_failure_discrimination (msg : String) (rows : List Record)
    (hrows : rows = []) :
    load_data .missingFile = .error .missingSource ∧
    load_data (.parseFailure msg) = .error (.malformedSource msg) ∧
    load_data (.parsed rows) = .error .emptySource ∧
    (LoadError.missingSource ≠ LoadError.emptySource ∧
      LoadError.missingSource ≠ LoadError.malformedSource msg ∧
      LoadError.emptySource ≠ LoadError.malformedSource msg) ∧
    (errorMessage .missingSource ≠ errorMessage .emptySource ∧
      errorMessage .missingSource ≠ errorMessage (.malformedSource msg) ∧
      errorMessage .emptySource ≠ errorMessage (.malformedSource msg)) ∧
    ∀ inp e, load_data inp = .error e → ∀ ds, load_data inp ≠ .ok ds := by
  subst hrows
  refine ⟨rfl, rfl, rfl, ⟨by simp, by simp, by simp⟩, ?_, ?_⟩
  · refine ⟨by simp [errorMessage], ?_, ?_⟩
    · intro h
      have hd := congrArg (fun s => s.data.head?) h
      simp [errorMessage, String.data_append] at hd
    · intro h
      have hd := congrArg (fun s => s.data.get? 1) h
      simp [errorMessage, String.data_append] at hd
  · intro inp e herr ds hok
    rw [herr] at hok
    exact Except.noConfusion hok

theorem load_data_failure_discrimination_witness :
    load_data (.parsed []) = .error .emptySource ∧
    load_data .missingFile ≠ .ok [] :=
  ⟨(load_data_failure_discrimination "x" [] rfl).2.2.1,
   (load_data_failure_discrimination "x" [] rfl).2.2.2.2.2 .missingFile
     .missingSource rfl []⟩

theorem filter_orderedInsert_of_val (v : Rat) (x : String × Rat)
    (l : List (String × Rat)) :
    (List.orderedInsert valGe x l).filter (fun p => decide (p.2 = v)) =
      if x.2 = v then x :: l.filter (fun p => decide (p.2 = v))
      else l.filter (fun p => decide (p.2 = v)) := by
  induction l with
  | nil =>
    by_cases hx : x.2 = v <;> simp [List.orderedInsert, hx]
  | cons y ys ih =>
    simp only [List.orderedInsert]
    by_cases hvge : valGe x y
    · rw [if_pos hvge]
      by_cases hx : x.2 = v <;> simp [List.filter_cons, hx]
    · rw [if_neg hvge]
      have hxy : x.2 < y.2 := lt_of_not_le hvge
      by_cases hx : x.2 = v
      · have hy : ¬y.2 = v := fun hyv => absurd (hx ▸ hyv ▸ hxy) (lt_irrefl _)
        simp [List.filter_cons, hy, ih, hx]
      · simp [List.filter_cons, ih, hx]

theorem filter_insertionSort_of_val (v : Rat) (m : List (String × Rat)) :
    (List.insertionSort valGe m).filter (fun p => decide (p.2 = v)) =
      m.filter (fun p => decide (p.2 = v)) := by
  induction m with
  | nil => rfl
  | cons x xs ih =>
    simp only [List.insertionSort]
    rw [filter_orderedInsert_of_val]
    by_cases hx : x.2 = v
    · rw [if_pos hx, ih]
      simp [List.filter_cons, hx]
    · rw [if_neg hx, ih]
      simp [List.filter_cons, hx]

/-- C7. Top-N shape: on any grouped-sums mapping, the ranking helper returns
exactly min(n, number of entries) pairs, sorted descending by value, forming
a sub-multiset of the input entries; ties keep the input iteration order
(the filter of the output at any fixed value is a prefix of the filter of
the input at that value). -/
theorem topN_shape (m : List (String × Rat)) (n : Nat) :
    (topN m n).length = min n m.length ∧
    (topN m n).Pairwise valGe ∧
    (topN m n).Subperm m ∧
    ∀ v : Rat,
      ((topN m n).filter fun p => decide (p.2 = v)) <+:
        (m.filter fun p => decide (p.2 = v)) := by
  refine ⟨?_, ?_, ?_, ?_⟩
  · rw [topN, List.length_take, List.length_insertionSort]
  · exact (List.sorted_insertionSort valGe m).sublist
      (List.take_sublist n (List.insertionSort valGe m))
  · exact ((List.take_sublist n (List.insertionSort valGe m)).subperm).trans
      (List.perm_insertionSort valGe m).subperm
  · intro v
    refine ⟨(List.drop n (List.insertionSort valGe m)).filter
      (fun p => decide (p.2 = v)), ?_⟩
    rw [topN, ← List.filter_append, List.take_append_drop,
      filter_insertionSort_of_val]

theorem loKey_le {g : Granularity} {rows : List Record} {r : Record}
    (h : r ∈ rows) : loKey g rows ≤ periodIndex g r.fecha := by
  cases rows with
  | nil => exact absurd h (List.not_mem_nil r)
  | cons b t =>
    rcases List.mem_cons.mp h with hb | ht
    · subst hb
      exact foldl_min_le_init (t.map fun x => periodIndex g x.fecha) _
    · exact foldl_min_le_mem _ _ _ (List.mem_map_of_mem _ ht)

theorem le_hiKey {g : Granularity} {rows : List Record} {r : Record}
    (h : r ∈ rows) : periodIndex g r.fecha ≤ hiKey g rows := by
  cases rows with
  | nil => exact absurd h (List.not_mem_nil r)
  | cons b t =>
    rcases List.mem_cons.mp h with hb | ht
    · subst hb
      exact le_foldl_max_init (t.map fun x => periodIndex g x.fecha) _
    · exact le_foldl_max_mem _ _ _ (List.mem_map_of_mem _ ht)

/-- C9, counterexample. The claim's weekly periods start on Monday, but the
code's resample W-MON bins are right-closed on Monday, so weeks run Tuesday
through Monday: Monday day 4 and Tuesday day 5 share a Monday-starting week
yet land in different code buckets, Tuesday day 5 and the following Monday
day 11 lie in different Monday-starting weeks yet share a code bucket, and
the two rows of `dfWeek` (days 4 and 5, one Monday-starting week) produce
two trend buckets instead of one. -/
theorem week_convention_counterexample :
    specMondayWeekIndex 4 = specMondayWeekIndex 5 ∧
    periodIndex Granularity.semanal 4 ≠ periodIndex Granularity.semanal 5 ∧
    specMondayWeekIndex 5 ≠ specMondayWeekIndex 11 ∧
    periodIndex Granularity.semanal 5 = periodIndex Granularity.semanal 11 ∧
    ((df_trend Granularity.semanal dfWeek).map fun b => b.key) = [0, 1] := by
  decide

/-- C9, amended. Time-bucket ordering with the code's week convention: the
weekly selector buckets by the right-closed Tuesday-through-Monday W-MON
bins (not Monday-starting weeks); with that convention, on a non-empty view
and any granularity the trend rows have strictly increasing (hence
duplicate-free) bucket keys, every input row has a bucket whose key is the
period index of its date, and each bucket's aggregates are the Ventas sum,
the Inventario mean and the Unidades sum of exactly the rows whose date lies
in that period. -/
theorem df_trend_buckets (g : Granularity) (rows : List Record)
    (hne : rows ≠ []) :
    List.Pairwise (fun a b : TrendRow => a.key < b.key) (df_trend g rows) ∧
    ((df_trend g rows).map fun b => b.key).Nodup ∧
    (∀ r ∈ rows, ∃ b ∈ df_trend g rows, b.key = periodIndex g r.fecha) ∧
    ∀ b ∈ df_trend g rows,
      b.ventas = ((rows.filter fun x =>
        periodIndex g x.fecha == b.key).map fun x => x.ventas).sum ∧
      b.unidades = ((rows.filter fun x =>
        periodIndex g x.fecha == b.key).map fun x => x.unidades).sum ∧
      b.inventario =
        (if (rows.filter fun x => periodIndex g x.fecha == b.key).isEmpty
          then none
          else some (((rows.filter fun x =>
              periodIndex g x.fecha == b.key).map fun x => x.inventario).sum /
            ((rows.filter fun x =>
              periodIndex g x.fecha == b.key).length : Rat))) := by
  cases rows with
  | nil => exact absurd rfl hne
  | cons r rs =>
    have hkeys : ((df_trend g (r :: rs)).map fun b => b.key) =
        (List.range (hiKey g (r :: rs) - loKey g (r :: rs) + 1).toNat).map
          (fun (i : Nat) => loKey g (r :: rs) + (i : Int)) := by
      simp only [df_trend, List.map_map]
      rfl
    have hpairkeys : List.Pairwise (fun a b : Int => a < b)
        ((df_trend g (r :: rs)).map fun b => b.key) := by
      rw [hkeys]
      refine List.pairwise_map.mpr ?_
      refine (List.pairwise_lt_range _).imp ?_
      intro i j h
      show loKey g (r :: rs) + (i : Int) < loKey g (r :: rs) + (j : Int)
      omega
    have hpair : List.Pairwise (fun a b : TrendRow => a.key < b.key)
        (df_trend g (r :: rs)) := List.pairwise_map.mp hpairkeys
    refine ⟨hpair, hpairkeys.imp (fun {i j} h => ne_of_lt h), ?_, ?_⟩
    · intro x hx
      have hlo : loKey g (r :: rs) ≤ periodIndex g x.fecha := loKey_le hx
      have hhi : periodIndex g x.fecha ≤ hiKey g (r :: rs) := le_hiKey hx
      have hk : periodIndex g x.fecha ∈
          ((df_trend g (r :: rs)).map fun b => b.key) := by
        have hval : loKey g (r :: rs) +
            (((periodIndex g x.fecha - loKey g (r :: rs)).toNat : Nat) : Int) =
            periodIndex g x.fecha := by omega
        have hmem : (periodIndex g x.fecha - loKey g (r :: rs)).toNat ∈
            List.range (hiKey g (r :: rs) - loKey g (r :: rs) + 1).toNat :=
          List.mem_range.mpr (by omega)
        rw [hkeys]
        exact List.mem_map.mpr ⟨_, hmem, hval⟩
      obtain ⟨b, hb, hbk⟩ := List.mem_map.mp hk
      exact ⟨b, hb, hbk⟩
    · intro b hb
      simp only [df_trend, List.mem_map] at hb
      obtain ⟨i, _, rfl⟩ := hb
      exact ⟨rfl, rfl, rfl⟩

theorem df_trend_buckets_witness :
    List.Pairwise (fun a b : TrendRow => a.key < b.key)
      (df_trend .diario dfW) ∧
    ((df_trend .diario dfW).map fun b => b.key).Nodup ∧
    (∀ r ∈ dfW, ∃ b ∈ df_trend .diario dfW,
      b.key = periodIndex .diario r.fecha) ∧
    ∀ b ∈ df_trend .diario dfW,
      b.ventas = ((dfW.filter fun x =>
        periodIndex .diario x.fecha == b.key).map fun x => x.ventas).sum ∧
      b.unidades = ((dfW.filter fun x =>
        periodIndex .diario x.fecha == b.key).map fun x => x.unidades).sum ∧
      b.inventario =
        (if (dfW.filter fun x =>
            periodIndex .diario x.fecha == b.key).isEmpty
          then none
          else some (((dfW.filter fun x =>
              periodIndex .diario x.fecha == b.key).map
                fun x => x.inventario).sum /
            ((dfW.filter fun x =>
              periodIndex .diario x.fecha == b.key).length : Rat))) :=
  df_trend_buckets .diario dfW (by simp [dfW])

/-- C10. Gap filling: on a non-empty view the trend emits exactly one row
for every bucket key from the first occupied period to the last, and a
bucket containing no rows appears with Ventas sum 0, Unidades sum 0 and an
undefined (None) Inventario mean, because resample materializes empty
intermediate bins. -/
theorem df_trend_gap_filling (g : Granularity) (rows : List Record)
    (hne : rows ≠ []) :
    ((df_trend g rows).map fun b => b.key) =
      (List.range (hiKey g rows - loKey g rows + 1).toNat).map
        (fun (i : Nat) => loKey g rows + (i : Int)) ∧
    (∀ k : Int, loKey g rows ≤ k → k ≤ hiKey g rows →
      ∃ b ∈ df_trend g rows, b.key = k) ∧
    ∀ b ∈ df_trend g rows,
      (rows.filter fun x => periodIndex g x.fecha == b.key) = [] →
      b.ventas = 0 ∧ b.unidades = 0 ∧ b.inventario = none := by
  cases rows with
  | nil => exact absurd rfl hne
  | cons r rs =>
    have hkeys : ((df_trend g (r :: rs)).map fun b => b.key) =
        (List.range (hiKey g (r :: rs) - loKey g (r :: rs) + 1).toNat).map
          (fun (i : Nat) => loKey g (r :: rs) + (i : Int)) := by
      simp only [df_trend, List.map_map]
      rfl
    refine ⟨hkeys, ?_, ?_⟩
    · intro k hlo hhi
      have hk : k ∈ ((df_trend g (r :: rs)).map fun b => b.key) := by
        have hval : loKey g (r :: rs) +
            (((k - loKey g (r :: rs)).toNat : Nat) : Int) = k := by omega
        have hmem : (k - loKey g (r :: rs)).toNat ∈
            List.range (hiKey g (r :: rs) - loKey g (r :: rs) + 1).toNat :=
          List.mem_range.mpr (by omega)
        rw [hkeys]
        exact List.mem_map.mpr ⟨_, hmem, hval⟩
      obtain ⟨b, hb, hbk⟩ := List.mem_map.mp hk
      exact ⟨b, hb, hbk⟩
    · intro b hb hempty
      simp only [df_trend, List.mem_map] at hb
      obtain ⟨i, _, rfl⟩ := hb
      refine ⟨?_, ?_, ?_⟩
      · show ((((r :: rs).filter _).map fun x => x.ventas).sum : Rat) = 0
        rw [hempty]
        rfl
      · show ((((r :: rs).filter _).map fun x => x.unidades).sum : Int) = 0
        rw [hempty]
        rfl
      · show (if ((r :: rs).filter _).isEmpty then none else _) = none
        rw [hempty]
        rfl

theorem df_trend_gap_filling_witness :
    ((df_trend .diario dfW).map fun b => b.key) =
      (List.range (hiKey .diario dfW - loKey .diario dfW + 1).toNat).map
        (fun (i : Nat) => loKey .diario dfW + (i : Int)) ∧
    (∀ k : Int, loKey .diario dfW ≤ k → k ≤ hiKey .diario dfW →
      ∃ b ∈ df_trend .diario dfW, b.key = k) ∧
    ∀ b ∈ df_trend .diario dfW,
      (dfW.filter fun x => periodIndex .diario x.fecha == b.key) = [] →
      b.ventas = 0 ∧ b.unidades = 0 ∧ b.inventario = none :=
  df_trend_gap_filling .diario dfW (by simp [dfW])

theorem char_toNat_ofNat {n : Nat} (h : n < 55296) :
    (Char.ofNat n).toNat = n := by
  simp [Char.ofNat, Nat.isValidChar, h, Char.ofNatAux, Char.toNat,
    UInt32.toNat, UInt32.ofNatCore]

theorem toNat_lowerCh (c : Char) :
    (lowerCh c).toNat =
      if 65 ≤ c.toNat ∧ c.toNat ≤ 90 then c.toNat + 32 else c.toNat := by
  unfold lowerCh
  split
  · rename_i h
    simp only [Bool.and_eq_true, decide_eq_true_eq] at h
    rw [if_pos h]
    exact char_toNat_ofNat (by omega)
  · rename_i h
    simp only [Bool.and_eq_true, decide_eq_true_eq, not_and, not_le] at h
    rw [if_neg]
    omega

theorem toNat_upperCh (c : Char) :
    (upperCh c).toNat =
      if 97 ≤ c.toNat ∧ c.toNat ≤ 122 then c.toNat - 32 else c.toNat := by
  unfold upperCh
  split
  · rename_i h
    simp only [Bool.and_eq_true, decide_eq_true_eq] at h
    rw [if_pos h]
    exact char_toNat_ofNat (by omega)
  · rename_i h
    simp only [Bool.and_eq_true, decide_eq_true_eq, not_and, not_le] at h
    rw [if_neg]
    omega

theorem char_eq_of_toNat_eq {c d : Char} (h : c.toNat = d.toNat) : c = d :=
  Char.eq_of_val_eq (UInt32.ext h)

theorem isAlphaCh_lowerCh (c : Char) : isAlphaCh (lowerCh c) = isAlphaCh c := by
  rw [Bool.eq_iff_iff]
  simp only [isAlphaCh, Bool.or_eq_true, Bool.and_eq_true, decide_eq_true_eq,
    toNat_lowerCh]
  split_ifs with h <;> omega

theorem lowerCh_lowerCh (c : Char) : lowerCh (lowerCh c) = lowerCh c := by
  apply char_eq_of_toNat_eq
  simp only [toNat_lowerCh]
  split_ifs <;> omega

theorem isSpaceCh_lowerCh (c : Char) : isSpaceCh (lowerCh c) = isSpaceCh c := by
  rw [Bool.eq_iff_iff]
  simp only [isSpaceCh, Bool.or_eq_true, decide_eq_true_eq, toNat_lowerCh]
  split_ifs with h <;> omega

theorem isSpaceCh_upperCh (c : Char) : isSpaceCh (upperCh c) = isSpaceCh c := by
  rw [Bool.eq_iff_iff]
  simp only [isSpaceCh, Bool.or_eq_true, decide_eq_true_eq, toNat_upperCh]
  split_ifs with h <;> omega

theorem lowerCh_upperCh (c : Char) : lowerCh (upperCh c) = lowerCh c := by
  apply char_eq_of_toNat_eq
  simp only [toNat_lowerCh, toNat_upperCh]
  split_ifs <;> omega

theorem upperCh_lowerCh (c : Char) : upperCh (lowerCh c) = upperCh c := by
  apply char_eq_of_toNat_eq
  simp only [toNat_upperCh, toNat_lowerCh]
  split_ifs <;> omega

theorem lowerCh_of_not_alpha {c : Char} (h : isAlphaCh c = false) :
    lowerCh c = c := by
  apply char_eq_of_toNat_eq
  simp only [isAlphaCh, Bool.or_eq_false_iff, Bool.and_eq_false_iff,
    decide_eq_false_iff_not, not_le] at h
  rw [toNat_lowerCh]
  split_ifs <;> omega

theorem not_space_of_alpha {c : Char} (h : isAlphaCh c = true) :
    isSpaceCh c = false := by
  simp only [isAlphaCh, Bool.or_eq_true, Bool.and_eq_true, decide_eq_true_eq]
    at h
  simp only [isSpaceCh, Bool.or_eq_false_iff, decide_eq_false_iff_not]
  omega

theorem isEmpty_titleAux (b : Bool) (l : List Char) :
    (titleAux b l).isEmpty = l.isEmpty := by
  cases l with
  | nil => rfl
  | cons c cs =>
    simp only [titleAux]
    split <;> rfl

theorem dropWhile_titleAux (l : List Char) :
    (titleAux false l).dropWhile isSpaceCh =
      titleAux false (l.dropWhile isSpaceCh) := by
  induction l with
  | nil => rfl
  | cons c cs ih =>
    cases halpha : isAlphaCh c with
    | true =>
      have hs : isSpaceCh c = false := not_space_of_alpha halpha
      have hc : isSpaceCh (upperCh c) = false := by
        rw [isSpaceCh_upperCh]; exact hs
      simp [titleAux, halpha, List.dropWhile_cons, hc, hs]
    | false =>
      cases hs : isSpaceCh c with
      | true => simp [titleAux, halpha, List.dropWhile_cons, hs, ih]
      | false => simp [titleAux, halpha, List.dropWhile_cons, hs]

theorem trimRight_titleAux (b : Bool) (l : List Char) :
    trimRight (titleAux b l) = titleAux b (trimRight l) := by
  induction l generalizing b with
  | nil => rfl
  | cons c cs ih =>
    cases halpha : isAlphaCh c with
    | true =>
      have hs : isSpaceCh c = false := not_space_of_alpha halpha
      have hc : isSpaceCh (if b then lowerCh c else upperCh c) = false := by
        cases b
        · simpa [isSpaceCh_upperCh] using hs
        · simpa [isSpaceCh_lowerCh] using hs
      simp [titleAux, trimRight, halpha, hs, hc, ih]
    | false =>
      simp only [titleAux, halpha, Bool.false_eq_true, if_false, trimRight,
        ih, isEmpty_titleAux]
      cases hcond : ((trimRight cs).isEmpty && isSpaceCh c) with
      | true => simp [hcond, titleAux]
      | false => simp [hcond, titleAux, halpha]

theorem titleAux_map_lowerCh (b : Bool) (l : List Char) :
    titleAux b (l.map lowerCh) = titleAux b l := by
  induction l generalizing b with
  | nil => rfl
  | cons c cs ih =>
    cases halpha : isAlphaCh c with
    | true =>
      have h1 : isAlphaCh (lowerCh c) = true := by
        rw [isAlphaCh_lowerCh]; exact halpha
      cases b <;>
        simp [titleAux, h1, halpha, lowerCh_lowerCh, upperCh_lowerCh, ih]
    | false =>
      have h1 : isAlphaCh (lowerCh c) = false := by
        rw [isAlphaCh_lowerCh]; exact halpha
      simp [titleAux, h1, halpha, lowerCh_of_not_alpha halpha, ih]

theorem map_lowerCh_titleAux (b : Bool) (l : List Char) :
    (titleAux b l).map lowerCh = l.map lowerCh := by
  induction l generalizing b with
  | nil => rfl
  | cons c cs ih =>
    cases halpha : isAlphaCh c with
    | true =>
      cases b <;>
        simp [titleAux, halpha, lowerCh_lowerCh, lowerCh_upperCh, ih]
    | false => simp [titleAux, halpha, ih]

theorem dropWhile_head_false {l : List Char} {c : Char} {cs : List Char}
    (h : l.dropWhile isSpaceCh = c :: cs) : isSpaceCh c = false := by
  induction l with
  | nil => exact absurd h (by simp)
  | cons a t ih =>
    rw [List.dropWhile_cons] at h
    split at h
    · exact ih h
    · rename_i ha
      obtain ⟨rfl, rfl⟩ : a = c ∧ t = cs :=
        ⟨(List.cons.injEq ..).mp h |>.1, (List.cons.injEq ..).mp h |>.2⟩
      simpa using ha

theorem trimRight_trimRight (l : List Char) :
    trimRight (trimRight l) = trimRight l := by
  induction l with
  | nil => rfl
  | cons c cs ih =>
    simp only [trimRight]
    cases hcond : ((trimRight cs).isEmpty && isSpaceCh c) with
    | true => rfl
    | false => simp [trimRight, ih, hcond]

theorem stripStr_stripStr (l : List Char) :
    stripStr (stripStr l) = stripStr l := by
  unfold stripStr
  cases hm : l.dropWhile isSpaceCh with
  | nil => rfl
  | cons c cs =>
    have hc : isSpaceCh c = false := dropWhile_head_false hm
    have h1 : trimRight (c :: cs) = c :: trimRight cs := by
      simp [trimRight, hc]
    rw [h1, List.dropWhile_cons]
    simp only [hc, Bool.false_eq_true, if_false]
    simp [trimRight, hc, trimRight_trimRight]

theorem stripStr_titleStr (l : List Char) :
    stripStr (titleStr l) = titleStr (stripStr l) := by
  unfold stripStr titleStr
  rw [dropWhile_titleAux, trimRight_titleAux]

theorem normalizeRegion_eq_title_key (s : String) :
    normalizeRegion s = String.mk (titleStr (caseWsKey s)) := by
  unfold normalizeRegion caseWsKey
  rw [stripStr_titleStr]
  unfold titleStr
  rw [titleAux_map_lowerCh]

theorem caseWsKey_normalizeRegion (s : String) :
    caseWsKey (normalizeRegion s) = caseWsKey s := by
  unfold caseWsKey normalizeRegion
  show (stripStr (stripStr (titleStr s.data))).map lowerCh =
    (stripStr s.data).map lowerCh
  rw [stripStr_stripStr, stripStr_titleStr]
  unfold titleStr
  rw [map_lowerCh_titleAux]

theorem normalizeRegion_congr {s t : String} (h : caseWsKey s = caseWsKey t) :
    normalizeRegion s = normalizeRegion t := by
  rw [normalizeRegion_eq_title_key, normalizeRegion_eq_title_key, h]

theorem of_mem_optionsOf {proj : Record → String} {df : List Record}
    {u : String} (h : u ∈ optionsOf proj df) : ∃ r ∈ df, proj r = u := by
  unfold optionsOf at h
  exact List.mem_map.mp
    (List.mem_dedup.mp ((List.perm_insertionSort _ _).mem_iff.mp h))

/-- C8. Región normalization collapses case and surrounding-whitespace
duplicates: normalization is invariant on strings sharing the same
case-and-whitespace key, the option list of a normalized frame never holds
two entries that differ only in letter case or surrounding whitespace, and
the scenario inputs lima, Lima-with-trailing-space and LIMA all normalize to
the single option Lima. -/
theorem region_normalization (df : List Record) :
    (∀ s t : String, caseWsKey s = caseWsKey t →
      normalizeRegion s = normalizeRegion t) ∧
    (∀ u v : String,
      u ∈ optionsOf (fun r => r.region) (df.map normalizeRecord) →
      v ∈ optionsOf (fun r => r.region) (df.map normalizeRecord) →
      caseWsKey u = caseWsKey v → u = v) ∧
    normalizeRegion "lima" = "Lima" ∧
    normalizeRegion "Lima " = "Lima" ∧
    normalizeRegion "LIMA" = "Lima" := by
  refine ⟨fun s t h => normalizeRegion_congr h, ?_, by decide, by decide,
    by decide⟩
  intro u v hu hv hk
  obtain ⟨ra, hra, hrau⟩ := of_mem_optionsOf hu
  obtain ⟨rb, hrb, hrbv⟩ := of_mem_optionsOf hv
  obtain ⟨a0, _, rfl⟩ := List.mem_map.mp hra
  obtain ⟨b0, _, rfl⟩ := List.mem_map.mp hrb
  subst hrau hrbv
  have hk2 : caseWsKey a0.region = caseWsKey b0.region := by
    have h1 := caseWsKey_normalizeRegion a0.region
    have h2 := caseWsKey_normalizeRegion b0.region
    rw [show (normalizeRecord a0).region = normalizeRegion a0.region from rfl,
      show (normalizeRecord b0).region = normalizeRegion b0.region from rfl,
      h1, h2] at hk
    exact hk
  show (normalizeRecord a0).region = (normalizeRecord b0).region
  exact normalizeRegion_congr hk2

theorem region_normalization_witness :
    normalizeRegion "LIMA " = normalizeRegion "lima" ∧
    optionsOf (fun r => r.region) (dfC8.map normalizeRecord) = ["Lima"] ∧
    ("Lima" : String) = "Lima" ∧
    normalizeRegion "lima" = "Lima" :=
  ⟨(region_normalization dfC8).1 "LIMA " "lima" (by decide),
   by decide,
   (region_normalization dfC8).2.1 "Lima" "Lima" (by decide) (by decide) rfl,
   (region_normalization dfC8).2.2.1⟩

end Dashboard
